import Mathlib

/-!
Verification of the ledger engine in `src/server.py`: the hand-written
SHA-1 digest, transaction signing/verification, block hashing, the
proof-of-work search, mining, and whole-chain validation.

Bytes are modelled as `Nat` (values `< 256` at every call site), 32-bit
machine integers as `Nat` with explicit `&&& 0xffffffff` masking exactly
where the Python code masks, and fallible or unbounded operations return
`Option`.
-/

set_option maxRecDepth 100000

namespace Server

/-- Python helper `_left_rotate(n, b)`: rotate a 32-bit integer `n` left by `b` bits
(`((n << b) | (n >> (32 - b))) & 0xffffffff`). -/
def leftRotate (n b : Nat) : Nat :=
  ((n <<< b) ||| (n >>> (32 - b))) &&& 0xffffffff

/-- One hex digit, lowercase, as produced by Python's `%x` formatting. -/
def hexDigit (n : Nat) : Char :=
  if n = 0 then '0' else if n = 1 then '1' else if n = 2 then '2'
  else if n = 3 then '3' else if n = 4 then '4' else if n = 5 then '5'
  else if n = 6 then '6' else if n = 7 then '7' else if n = 8 then '8'
  else if n = 9 then '9' else if n = 10 then 'a' else if n = 11 then 'b'
  else if n = 12 then 'c' else if n = 13 then 'd' else if n = 14 then 'e'
  else 'f'

/-- Python's `f"{x:08x}"` for `x < 2^32`: exactly eight lowercase hex
digits, most significant nibble first, zero-padded.  Every call site in
the source masks `x` with `0xffffffff` first, so the `x < 2^32` case is
the only one exercised. -/
def toHex8 (x : Nat) : String :=
  String.mk ((List.range 8).map (fun i => hexDigit ((x >>> ((7 - i) * 4)) &&& 0xf)))

/-- Number of `0x00` padding bytes the `while (len(message)*8) % 512 != 448`
loop appends, given the length of the message after the `0x80` byte:
the least `z` with `(len1 + z) % 64 = 56`. -/
def padZeroCount (len1 : Nat) : Nat :=
  (56 + 64 - len1 % 64) % 64

/-- Python `originalLength.to_bytes(8, byteorder='big')`: the 64-bit big-endian
encoding of the bit length. -/
def lengthBytes (n : Nat) : List Nat :=
  (List.range 8).map (fun i => (n >>> ((7 - i) * 8)) &&& 0xff)

/-- Python `int.from_bytes(chunk[j:j+4], 'big')`: a 32-bit big-endian word from
four bytes of the chunk. -/
def wordAt (chunk : List Nat) (j : Nat) : Nat :=
  (chunk.getD j 0) * 0x1000000 + (chunk.getD (j+1) 0) * 0x10000 +
  (chunk.getD (j+2) 0) * 0x100 + chunk.getD (j+3) 0

/-- The `for j in range(16, 80)` loop extending the 16-word schedule to 80
words: each appended word is the 1-bit left rotation of the XOR of words
`j-3`, `j-8`, `j-14`, `j-16` (`j` = current length of `w`). -/
def extendSchedule : Nat → List Nat → List Nat
  | 0, w => w
  | n+1, w =>
      let j := w.length
      extendSchedule n
        (w ++ [leftRotate
          ((w.getD (j-3) 0) ^^^ (w.getD (j-8) 0) ^^^ (w.getD (j-14) 0) ^^^ (w.getD (j-16) 0)) 1])

/-- One of the 80 compression rounds.  `~b` in Python on a value already
masked to 32 bits coincides with `b ^^^ 0xffffffff`; the working
variables are always masked, so this is exact. -/
def roundStep (w : List Nat) (st : Nat × Nat × Nat × Nat × Nat) (j : Nat) :
    Nat × Nat × Nat × Nat × Nat :=
  let (a, b, c, d, e) := st
  let f :=
    if j ≤ 19 then (b &&& c) ||| ((b ^^^ 0xffffffff) &&& d)
    else if j ≤ 39 then b ^^^ c ^^^ d
    else if j ≤ 59 then (b &&& c) ||| (b &&& d) ||| (c &&& d)
    else b ^^^ c ^^^ d
  let k :=
    if j ≤ 19 then 0x5A827999
    else if j ≤ 39 then 0x6ED9EBA1
    else if j ≤ 59 then 0x8F1BBCDC
    else 0xCA62C1D6
  let temp := (leftRotate a 5 + f + e + k + w.getD j 0) &&& 0xffffffff
  (temp, a, leftRotate b 30, c, d)

/-- Processing of one 64-byte chunk: build the 16-word schedule, extend it
to 80 words, run the 80 rounds from the current accumulators, and add the
results back into the accumulators mod `2^32`. -/
def processChunk (chunk : List Nat) (hs : Nat × Nat × Nat × Nat × Nat) :
    Nat × Nat × Nat × Nat × Nat :=
  let (h0, h1, h2, h3, h4) := hs
  let w16 := (List.range 16).map (fun j => wordAt chunk (4 * j))
  let w := extendSchedule 64 w16
  let (a, b, c, d, e) := (List.range 80).foldl (roundStep w) (h0, h1, h2, h3, h4)
  ((h0 + a) &&& 0xffffffff, (h1 + b) &&& 0xffffffff, (h2 + c) &&& 0xffffffff,
   (h3 + d) &&& 0xffffffff, (h4 + e) &&& 0xffffffff)

/-- The `for i in range(0, len(message), 64)` loop: consume the padded
message 64 bytes at a time.  The first argument is the number of chunks
(the padded length is always a multiple of 64). -/
def processChunks : Nat → List Nat → (Nat × Nat × Nat × Nat × Nat) →
    Nat × Nat × Nat × Nat × Nat
  | 0, _, hs => hs
  | n+1, msg, hs => processChunks n (msg.drop 64) (processChunk (msg.take 64) hs)

/-- Final formatting `"".join(f"{x:08x}" for x in [h0, h1, h2, h3, h4])`: the
formatting of the five accumulators. -/
def digestOf (hs : Nat × Nat × Nat × Nat × Nat) : String :=
  toHex8 hs.1 ++ toHex8 hs.2.1 ++ toHex8 hs.2.2.1 ++ toHex8 hs.2.2.2.1 ++ toHex8 hs.2.2.2.2

/-- The function `sha1_hex(message)`: the manual SHA-1 of `src/server.py`.  Input is
the message as a list of bytes; output is the 40-character lowercase hex
digest. -/
def sha1_hex (message : List Nat) : String :=
  let originalLength := message.length * 8
  let padded := message ++ [0x80] ++ List.replicate (padZeroCount (message.length + 1)) 0x00
    ++ lengthBytes originalLength
  digestOf (processChunks ((padded.length + 63) / 64) padded
      (0x67452301, 0xEFCDAB89, 0x98BADCFE, 0x10325476, 0xC3D2E1F0))

/-- UTF-8 encoding of one character (code point), as bytes. -/
def utf8Bytes (c : Char) : List Nat :=
  let n := c.toNat
  if n < 0x80 then [n]
  else if n < 0x800 then [0xC0 ||| (n >>> 6), 0x80 ||| (n &&& 0x3F)]
  else if n < 0x10000 then
    [0xE0 ||| (n >>> 12), 0x80 ||| ((n >>> 6) &&& 0x3F), 0x80 ||| (n &&& 0x3F)]
  else
    [0xF0 ||| (n >>> 18), 0x80 ||| ((n >>> 12) &&& 0x3F),
     0x80 ||| ((n >>> 6) &&& 0x3F), 0x80 ||| (n &&& 0x3F)]

/-- UTF-8 bytes of a string, as `Nat`s (`.encode("utf8")` in Python). -/
def strBytes (s : String) : List Nat :=
  (s.data.map utf8Bytes).flatten

/-- The sixteen lowercase hexadecimal digit characters. -/
def hexChars : List Char :=
  "0123456789abcdef".data

/-- The string of `n` zero characters, `"0" * n`. -/
def zeros (n : Nat) : String :=
  String.mk (List.replicate n '0')

/-- Python's `str.startswith`: the second string is a prefix of the first
(as a character sequence). -/
def startswith (s p : String) : Bool :=
  p.data.isPrefixOf s.data

/-- The `Transaction` dataclass: one message transfer on the chain.  The
sender is a public-key hex string or `"SYSTEM"` for rewards; signature
and verification key are optional until signed. -/
structure Transaction where
  sender : String
  recipient : String
  message : String
  signature : Option String := none
  public_key : Option String := none
deriving DecidableEq, Repr

/-- The dictionary form produced by `Transaction.to_dict`: the dataclass
fields with `public_key` popped. -/
structure TxRecord where
  sender : String
  recipient : String
  message : String
  signature : Option String
deriving DecidableEq, Repr

/-- Method `Transaction.to_dict`: convert to a plain dictionary, dropping the
`public_key` field. -/
def Transaction.to_dict (tx : Transaction) : TxRecord :=
  ⟨tx.sender, tx.recipient, tx.message, tx.signature⟩

/-- Method `Transaction.message_bytes`: UTF-8 bytes of the canonical payload
`f"{sender}|{recipient}|{message}"`. -/
def Transaction.message_bytes (tx : Transaction) : List Nat :=
  strBytes (tx.sender ++ "|" ++ tx.recipient ++ "|" ++ tx.message)

/-- Method `Transaction.is_system_reward`: system rewards need no signature. -/
def Transaction.is_system_reward (tx : Transaction) : Bool :=
  tx.sender == "SYSTEM"

/-- A signature-verification capability standing for `verify_signature`
(the try/except wrapper around the external secp256k1 ECDSA `verify`):
arguments are public-key hex, message bytes, signature hex.  The wrapper
returns a `Bool` and never raises; its cryptographic behaviour is opaque,
so it is a parameter of every definition that consumes it. -/
def SigCap : Type :=
  String → List Nat → String → Bool

/-- Method `Transaction.verify`: system rewards always verify; otherwise Python's
`if not self.signature or not self.public_key: return False` rejects a
missing (`None`) or empty (falsy `""`) signature or key, and the rest
delegates to `verify_signature(self.public_key, self.message_bytes(),
self.signature)`. -/
def Transaction.verify (cap : SigCap) (tx : Transaction) : Bool :=
  if tx.is_system_reward then true
  else
    match tx.signature, tx.public_key with
    | some s, some p =>
        if s = "" ∨ p = "" then false
        else cap p tx.message_bytes s
    | _, _ => false

/-- The `Block` dataclass.  `previous_hash` is `Option String` because the
Python field holds either a hex digest string or (never in practice)
`None`, and `mine_pending_transactions` copies the predecessor's
`Optional[str]` hash into it; genesis stores `some ("0" * 40)`.
Timestamps (Python wall-clock floats) are modelled as `Nat`, passed in
explicitly wherever the code calls `time.time()`; the claims under
verification never depend on the numeric rendering of the timestamp. -/
structure Block where
  index : Nat
  timestamp : Nat
  transactions : List TxRecord
  previous_hash : Option String
  nonce : Nat := 0
  hash : Option String := none
deriving DecidableEq, Repr

/-- JSON escaping of one character as `json.dumps` does with its default
`ensure_ascii=True`: `\"` and `\\`, the short escapes for the control
characters that have them, `\u00xx` for other control characters,
printable ASCII verbatim, and `\uXXXX` (with surrogate pairs beyond the
BMP) for all non-ASCII. -/
def jsonEscapeChar (c : Char) : List Char :=
  let hex4 (n : Nat) : List Char :=
    '\\' :: 'u' :: (List.range 4).map (fun i => hexDigit ((n >>> ((3 - i) * 4)) &&& 0xf))
  if c = '"' then ['\\', '"']
  else if c = '\\' then ['\\', '\\']
  else if c = '\n' then ['\\', 'n']
  else if c = '\r' then ['\\', 'r']
  else if c = '\t' then ['\\', 't']
  else if c.toNat = 8 then ['\\', 'b']
  else if c.toNat = 12 then ['\\', 'f']
  else if 0x20 ≤ c.toNat ∧ c.toNat ≤ 0x7e then [c]
  else if c.toNat < 0x10000 then hex4 c.toNat
  else
    hex4 (0xD800 + ((c.toNat - 0x10000) >>> 10)) ++ hex4 (0xDC00 + ((c.toNat - 0x10000) &&& 0x3FF))

/-- A JSON string literal, double-quoted and escaped. -/
def jsonString (s : String) : String :=
  "\"" ++ String.mk ((s.data.map jsonEscapeChar).flatten) ++ "\""

/-- JSON for an optional string: `null` for `None`. -/
def jsonOptString : Option String → String
  | none => "null"
  | some s => jsonString s

/-- Rendering by `json.dumps` of one transaction dictionary with `sort_keys=True` and
the default `", "` / `": "` separators: keys in sorted order `message`,
`recipient`, `sender`, `signature`. -/
def jsonTx (t : TxRecord) : String :=
  "\x7b\"message\": " ++ jsonString t.message ++
  ", \"recipient\": " ++ jsonString t.recipient ++
  ", \"sender\": " ++ jsonString t.sender ++
  ", \"signature\": " ++ jsonOptString t.signature ++ "\x7d"

/-- Rendering by `json.dumps` of the transaction list. -/
def jsonTxList (ts : List TxRecord) : String :=
  "[" ++ String.intercalate ", " (ts.map jsonTx) ++ "]"

/-- The canonical block string of `Block.compute_hash`: `json.dumps` of
the five-field `block_content` dictionary (the `hash` field excluded)
with `sort_keys=True`, so the keys appear as `index`, `nonce`,
`previous_hash`, `timestamp`, `transactions`. -/
def Block.block_string (b : Block) : String :=
  "\x7b\"index\": " ++ toString b.index ++
  ", \"nonce\": " ++ toString b.nonce ++
  ", \"previous_hash\": " ++ jsonOptString b.previous_hash ++
  ", \"timestamp\": " ++ toString b.timestamp ++
  ", \"transactions\": " ++ jsonTxList b.transactions ++ "\x7d"

/-- Method `Block.compute_hash`: the SHA-1 digest of the canonical block string. -/
def Block.compute_hash (b : Block) : String :=
  sha1_hex (strBytes b.block_string)

/-- The `Blockchain` state: difficulty, committed chain, pending pool.
(`block_reward` is a constructor parameter of the Python class but is
never read by any operation, so it is not carried.) -/
structure Blockchain where
  difficulty : Nat
  chain : List Block
  pending_transactions : List Transaction
deriving DecidableEq, Repr

/-- Method `Blockchain.create_genesis_block`: the first block, with index 0, no
transactions, `previous_hash` of 40 zero characters, nonce 0, and its
hash computed (not mined) from its own content.  `t0` is the wall-clock
value of `time.time()` at construction. -/
def create_genesis_block (t0 : Nat) : Block :=
  let genesis_block : Block :=
    { index := 0, timestamp := t0, transactions := [],
      previous_hash := some (zeros 40), nonce := 0 }
  { genesis_block with hash := some genesis_block.compute_hash }

/-- Constructor `Blockchain.__init__(difficulty, block_reward)`: empty pending pool
and a chain holding only the genesis block. -/
def Blockchain.init (difficulty : Nat) (t0 : Nat) : Blockchain :=
  { difficulty := difficulty,
    chain := [create_genesis_block t0],
    pending_transactions := [] }

/-- Method `Blockchain.add_transaction`: reject (state unchanged) if the
transaction does not verify, otherwise append it to the pending pool.
Returns the Python function's boolean along with the updated state. -/
def Blockchain.add_transaction (cap : SigCap) (bc : Blockchain) (tx : Transaction) :
    Bool × Blockchain :=
  if !(tx.verify cap) then (false, bc)
  else (true, { bc with pending_transactions := bc.pending_transactions ++ [tx] })

/-- Method `Blockchain.proof_of_work`: try successive nonces until the block's
hash starts with `difficulty` zero characters.  The Python loop is
unbounded (`while True`); it is modelled with explicit fuel, `none`
meaning the search has not yet succeeded within `fuel` attempts.  On
success it returns the (nonce-mutated) block together with the winning
hash, exactly the state the Python mutation leaves behind. -/
def proof_of_work (difficulty : Nat) : Nat → Block → Option (Block × String)
  | 0, _ => none
  | fuel + 1, block =>
      let h := block.compute_hash
      if startswith h (zeros difficulty) then some (block, h)
      else proof_of_work difficulty fuel { block with nonce := block.nonce + 1 }

/-- Method `Blockchain.mine_pending_transactions(miner_address)`: append the
reward transaction (sender `"SYSTEM"`, recipient the miner, message
`f"Block reward to {miner_address}"`, no signature) to the pending pool,
snapshot the whole pool as dictionaries, build the candidate block on
top of the last block, run the proof-of-work search, then commit the
finalized block and clear the pool.  `t` is the `time.time()` value at
block construction and `fuel` bounds the nonce search; `none` covers the
two situations the Python code cannot return from normally (empty chain:
`chain[-1]` raises; search not yet finished within `fuel`). -/
def Blockchain.mine_pending_transactions (bc : Blockchain) (miner_address : String)
    (t : Nat) (fuel : Nat) : Option (Blockchain × Block) :=
  let reward_tx : Transaction :=
    { sender := "SYSTEM", recipient := miner_address,
      message := "Block reward to " ++ miner_address, signature := none }
  let pending := bc.pending_transactions ++ [reward_tx]
  let transactions_dicts := pending.map Transaction.to_dict
  match bc.chain.getLast? with
  | none => none
  | some last =>
      let new_block : Block :=
        { index := last.index + 1, timestamp := t,
          transactions := transactions_dicts,
          previous_hash := last.hash }
      match proof_of_work bc.difficulty fuel new_block with
      | none => none
      | some (mined, block_hash) =>
          let final := { mined with hash := some block_hash }
          some ({ bc with chain := bc.chain ++ [final], pending_transactions := [] }, final)

/-- The per-block body of the `is_chain_valid` loop: stored hash equals
the recomputed hash (`None` compares unequal to any string), linkage to
the predecessor's stored hash, and the difficulty prefix on the stored
hash; `false` on the first failing check. -/
def checkBlock (difficulty : Nat) (prev current : Block) : Bool :=
  match current.hash with
  | none => false
  | some h =>
      if h ≠ current.compute_hash then false
      else if current.previous_hash ≠ prev.hash then false
      else if !(startswith h (zeros difficulty)) then false
      else true

/-- The `for i in range(1, len(chain))` loop of `is_chain_valid`, carrying
the predecessor block. -/
def chainValidFrom (difficulty : Nat) : Block → List Block → Bool
  | _, [] => true
  | prev, current :: rest =>
      checkBlock difficulty prev current && chainValidFrom difficulty current rest

/-- Method `Blockchain.is_chain_valid`: every block from index 1 on passes the
three checks; the genesis block is never inspected as `current`. -/
def Blockchain.is_chain_valid (bc : Blockchain) : Bool :=
  match bc.chain with
  | [] => true
  | g :: rest => chainValidFrom bc.difficulty g rest

/-- The three conditions `checkBlock` tests for one block and its
predecessor, as a proposition: stored hash equals the recomputed hash,
linkage, and the difficulty prefix on the stored hash. -/
def blockChecks (difficulty : Nat) (prev current : Block) : Prop :=
  current.hash = some current.compute_hash
  ∧ current.previous_hash = prev.hash
  ∧ ∃ h, current.hash = some h ∧ startswith h (zeros difficulty) = true

/-- Ledger states reachable from construction by any sequence of
`add_transaction` calls and successfully terminating
`mine_pending_transactions` calls, for a fixed signature capability. -/
inductive Reachable (cap : SigCap) : Blockchain → Prop where
  | base (d t0 : Nat) : Reachable cap (Blockchain.init d t0)
  | add (bc : Blockchain) (tx : Transaction) (h : Reachable cap bc) :
      Reachable cap (bc.add_transaction cap tx).2
  | mine (bc : Blockchain) (miner : String) (t fuel : Nat) (bc' : Blockchain) (blk : Block)
      (h : Reachable cap bc)
      (hm : bc.mine_pending_transactions miner t fuel = some (bc', blk)) :
      Reachable cap bc'

lemma hexDigit_mem_hexChars (n : Nat) : hexDigit n ∈ hexChars := by
  match n with
  | 0 | 1 | 2 | 3 | 4 | 5 | 6 | 7 | 8 | 9 | 10 | 11 | 12 | 13 | 14 | 15 => decide
  | n + 16 =>
    have h : hexDigit (n + 16) = 'f' := by
      unfold hexDigit
      iterate 15 rw [if_neg (by omega)]
    rw [h]
    decide

lemma toHex8_length (x : Nat) : (toHex8 x).length = 8 := by
  simp [toHex8, String.length]

lemma toHex8_chars (x : Nat) : ∀ c ∈ (toHex8 x).data, c ∈ hexChars := by
  intro c hc
  simp only [toHex8, String.data] at hc
  obtain ⟨i, _, rfl⟩ := List.mem_map.mp hc
  exact hexDigit_mem_hexChars _

lemma digestOf_length (hs : Nat × Nat × Nat × Nat × Nat) : (digestOf hs).length = 40 := by
  simp [digestOf, String.length_append, toHex8_length]

lemma digestOf_chars (hs : Nat × Nat × Nat × Nat × Nat) :
    ∀ c ∈ (digestOf hs).data, c ∈ hexChars := by
  intro c hc
  simp only [digestOf, String.data_append, List.mem_append] at hc
  rcases hc with ((((h | h) | h) | h) | h) <;> exact toHex8_chars _ _ h

/-- C1.  `sha1_hex` is a pure Lean function of the input bytes, hence
deterministic; for every input its output has exactly 40 characters, all
of them lowercase hexadecimal digits; and on the standard test vectors
(the empty message and `"abc"`) it produces the published SHA-1 digests,
pinning the bit-exact padding, schedule, and compression of the spec. -/
theorem sha1_hex_is_40_lowercase_hex_and_bit_exact :
    (∀ msg : List Nat,
       (sha1_hex msg).length = 40 ∧ ∀ c ∈ (sha1_hex msg).data, c ∈ hexChars)
    ∧ sha1_hex (strBytes "") = "da39a3ee5e6b4b0d3255bfef95601890afd80709"
    ∧ sha1_hex (strBytes "abc") = "a9993e364706816aba3e25717850c26c9cd0d89d" := by
  refine ⟨fun msg => ?_, by decide, by decide⟩
  unfold sha1_hex
  exact ⟨digestOf_length _, digestOf_chars _⟩

/-- C9.  The `|`-joined canonical signed payload is not injective in the
`(sender, recipient, message)` triple: the two distinct triples
`("a|b", "c", "m")` and `("a", "b", "c|m")` produce byte-identical
payloads, because the separator is not escaped. -/
theorem message_bytes_not_injective :
    (("a|b", "c", "m") ≠ (("a" : String), ("b" : String), ("c|m" : String)))
    ∧ Transaction.message_bytes ⟨"a|b", "c", "m", none, none⟩
      = Transaction.message_bytes ⟨"a", "b", "c|m", none, none⟩ := by
  decide

/-- C8.  At difficulty 0 the proof-of-work search succeeds on its very
first attempt for every candidate block: one unit of fuel suffices, the
returned block is the unchanged candidate (nonce untouched), and the
returned hash is the candidate's computed hash, because the required
prefix is empty. -/
theorem proof_of_work_difficulty_zero_first_attempt (b : Block) (fuel : Nat) :
    proof_of_work 0 (fuel + 1) b = some (b, b.compute_hash) :=
  rfl

/-- C7.  For every difficulty (and every construction time), the freshly
constructed ledger has a chain of length exactly 1; its sole block has
index 0, an empty transaction list, `previous_hash` of forty `'0'`
characters, nonce 0, and a stored hash equal to the digest of its own
canonical encoding; and the genesis block is identical whatever the
difficulty, so no leading-zero constraint is applied to it. -/
theorem genesis_block_shape (d d' t0 : Nat) :
    (Blockchain.init d t0).chain.length = 1
    ∧ (Blockchain.init d t0).chain = [create_genesis_block t0]
    ∧ (create_genesis_block t0).index = 0
    ∧ (create_genesis_block t0).transactions = []
    ∧ (create_genesis_block t0).previous_hash
        = some "0000000000000000000000000000000000000000"
    ∧ (create_genesis_block t0).nonce = 0
    ∧ (create_genesis_block t0).hash = some ((create_genesis_block t0).compute_hash)
    ∧ (Blockchain.init d t0).chain = (Blockchain.init d' t0).chain := by
  refine ⟨rfl, rfl, rfl, rfl, ?_, rfl, rfl, rfl⟩
  norm_num [create_genesis_block, zeros]
  decide

/-- C5.  `Transaction.verify` is a total boolean function (so it never
raises).  Under the Signature Capability contract that a malformed —
here, empty — key or signature verifies as `false` (hypotheses `hk`,
`hs`, matching §4.2 of the spec and the behaviour of the
`verify_signature` wrapper), it returns: `true` for every transaction
whose sender is `"SYSTEM"`, signature absent or present; `false` whenever
the signature or the signing key is missing; and otherwise exactly the
capability's verdict over the canonical payload. -/
theorem verify_spec (cap : SigCap)
    (hk : ∀ m s, cap "" m s = false) (hs : ∀ p m, cap p m "" = false)
    (tx : Transaction) :
    tx.verify cap =
      (if tx.sender = "SYSTEM" then true
       else
         match tx.signature, tx.public_key with
         | some s, some p => cap p tx.message_bytes s
         | _, _ => false) := by
  unfold Transaction.verify Transaction.is_system_reward
  by_cases hsys : tx.sender = "SYSTEM"
  · simp [hsys]
  · simp only [hsys, if_false, beq_iff_eq, if_neg hsys]
    match htx : tx.signature, hpk : tx.public_key with
    | some s, some p =>
        by_cases he : s = "" ∨ p = ""
        · rcases he with rfl | rfl
          · simp [hs]
          · simp [hk]
        · simp [he]
    | some s, none => rfl
    | none, some p => rfl
    | none, none => rfl

/-- Witness for C5 at a concrete capability and transaction. -/
theorem verify_spec_witness :
    Transaction.verify (fun _ _ _ => false) ⟨"alice", "bob", "hi", some "sg", some "pk"⟩
      = false := by
  have h := verify_spec (fun _ _ _ => false) (fun _ _ => rfl) (fun _ _ => rfl)
    ⟨"alice", "bob", "hi", some "sg", some "pk"⟩
  rw [h]
  decide

/-- C6.  `add_transaction` returns `true` and appends the transaction as
the last element of the pending pool when it verifies, and returns
`false` leaving the whole state (difficulty, chain, and pending pool)
unchanged when it does not; nothing else changes in either case. -/
theorem add_transaction_spec (cap : SigCap) (bc : Blockchain) (tx : Transaction) :
    (tx.verify cap = true →
       bc.add_transaction cap tx =
         (true, { difficulty := bc.difficulty, chain := bc.chain,
                  pending_transactions := bc.pending_transactions ++ [tx] }))
    ∧ (tx.verify cap = false → bc.add_transaction cap tx = (false, bc)) := by
  unfold Blockchain.add_transaction
  constructor
  · intro hv
    simp [hv]
  · intro hv
    simp [hv]

/-- Witness for C6: a system transaction is accepted and appended; a
signatureless user transaction is rejected with the state unchanged. -/
theorem add_transaction_spec_witness :
    (Transaction.verify (fun _ _ _ => false) ⟨"SYSTEM", "r", "msg", none, none⟩ = true
     ∧ Blockchain.add_transaction (fun _ _ _ => false) ⟨2, [], []⟩
         ⟨"SYSTEM", "r", "msg", none, none⟩
       = (true, ⟨2, [], [⟨"SYSTEM", "r", "msg", none, none⟩]⟩))
    ∧ (Transaction.verify (fun _ _ _ => false) ⟨"u", "r", "msg", none, none⟩ = false
       ∧ Blockchain.add_transaction (fun _ _ _ => false) ⟨2, [], []⟩
           ⟨"u", "r", "msg", none, none⟩
         = (false, ⟨2, [], []⟩)) :=
  ⟨⟨by decide,
    (add_transaction_spec (fun _ _ _ => false) ⟨2, [], []⟩
      ⟨"SYSTEM", "r", "msg", none, none⟩).1 (by decide)⟩,
   ⟨by decide,
    (add_transaction_spec (fun _ _ _ => false) ⟨2, [], []⟩
      ⟨"u", "r", "msg", none, none⟩).2 (by decide)⟩⟩

lemma compute_hash_irrel (b : Block) (o : Option String) :
    Block.compute_hash { b with hash := o } = b.compute_hash :=
  rfl

lemma proof_of_work_spec :
    ∀ (fuel d : Nat) (b b' : Block) (h : String),
      proof_of_work d fuel b = some (b', h) →
      h = b'.compute_hash ∧ startswith h (zeros d) = true
      ∧ b'.index = b.index ∧ b'.timestamp = b.timestamp
      ∧ b'.transactions = b.transactions ∧ b'.previous_hash = b.previous_hash
      ∧ b'.hash = b.hash := by
  intro fuel
  induction fuel with
  | zero =>
      intro d b b' h hp
      simp [proof_of_work] at hp
  | succ n ih =>
      intro d b b' h hp
      simp only [proof_of_work] at hp
      by_cases hstart : startswith b.compute_hash (zeros d) = true
      · rw [if_pos hstart] at hp
        simp only [Option.some.injEq, Prod.mk.injEq] at hp
        obtain ⟨rfl, rfl⟩ := hp
        exact ⟨rfl, hstart, rfl, rfl, rfl, rfl, rfl⟩
      · rw [if_neg hstart] at hp
        obtain ⟨h1, h2, h3, h4, h5, h6, h7⟩ := ih d _ b' h hp
        exact ⟨h1, h2, h3, h4, h5, h6, h7⟩

lemma mine_spec (bc : Blockchain) (miner : String) (t fuel : Nat) (bc' : Blockchain)
    (blk : Block)
    (hm : bc.mine_pending_transactions miner t fuel = some (bc', blk)) :
    ∃ last, bc.chain.getLast? = some last
      ∧ blk.index = last.index + 1
      ∧ blk.timestamp = t
      ∧ blk.previous_hash = last.hash
      ∧ blk.transactions =
          (bc.pending_transactions
            ++ [(⟨"SYSTEM", miner, "Block reward to " ++ miner, none, none⟩ : Transaction)]).map
            Transaction.to_dict
      ∧ blk.hash = some blk.compute_hash
      ∧ startswith blk.compute_hash (zeros bc.difficulty) = true
      ∧ bc' = { difficulty := bc.difficulty, chain := bc.chain ++ [blk],
                pending_transactions := [] } := by
  unfold Blockchain.mine_pending_transactions at hm
  cases hlast : bc.chain.getLast? with
  | none => rw [hlast] at hm; simp at hm
  | some last =>
      rw [hlast] at hm
      dsimp only at hm
      cases hpow : proof_of_work bc.difficulty fuel
        { index := last.index + 1, timestamp := t,
          transactions :=
            (bc.pending_transactions
              ++ [(⟨"SYSTEM", miner, "Block reward to " ++ miner, none, none⟩ : Transaction)]).map
              Transaction.to_dict,
          previous_hash := last.hash } with
      | none => rw [hpow] at hm; simp at hm
      | some mh =>
          obtain ⟨mined, block_hash⟩ := mh
          rw [hpow] at hm
          simp only [Option.some.injEq, Prod.mk.injEq] at hm
          obtain ⟨rfl, rfl⟩ := hm
          obtain ⟨hbh, hsw, hidx, hts, htx, hph, _⟩ :=
            proof_of_work_spec fuel bc.difficulty _ mined block_hash hpow
          subst hbh
          refine ⟨last, rfl, hidx, hts, hph, htx, rfl, hsw, rfl⟩

/-- C2.  When the proof-of-work search terminates, mining on a ledger
with `N` pending transactions appends exactly one block to the chain;
that block's transaction list has exactly `N + 1` entries — the pending
transactions in their original order followed by the reward record with
sender `"SYSTEM"` and recipient the miner's address; its index is the
previous last block's index plus one; its `previous_hash` is the
previous last block's stored hash; its stored hash starts with
`difficulty` `'0'` characters; and the pending pool is left empty. -/
theorem mine_appends_one_block (bc : Blockchain) (miner : String) (t fuel : Nat)
    (bc' : Blockchain) (blk : Block)
    (hm : bc.mine_pending_transactions miner t fuel = some (bc', blk)) :
    bc'.chain = bc.chain ++ [blk]
    ∧ blk.transactions.length = bc.pending_transactions.length + 1
    ∧ blk.transactions
        = bc.pending_transactions.map Transaction.to_dict
          ++ [(⟨"SYSTEM", miner, "Block reward to " ++ miner, none⟩ : TxRecord)]
    ∧ (∃ last, bc.chain.getLast? = some last
         ∧ blk.index = last.index + 1 ∧ blk.previous_hash = last.hash)
    ∧ (∃ h, blk.hash = some h ∧ startswith h (zeros bc.difficulty) = true)
    ∧ bc'.pending_transactions = [] := by
  obtain ⟨last, hlast, hidx, hts, hph, htx, hhash, hsw, hbc'⟩ :=
    mine_spec bc miner t fuel bc' blk hm
  subst hbc'
  refine ⟨rfl, ?_, ?_, ⟨last, hlast, hidx, hph⟩, ⟨blk.compute_hash, hhash, hsw⟩, rfl⟩
  · rw [htx]
    simp
  · rw [htx]
    simp [Transaction.to_dict]

/-- Witness for C2: mining at difficulty 0 on a fresh ledger with an
empty pending pool (`N = 0`). -/
theorem mine_appends_one_block_witness :
    ((Blockchain.init 0 0).mine_pending_transactions "m" 1 1
      = some
        (⟨0,
          [⟨0, 0, [], some (zeros 40), 0,
             some "233142eb21d663ce6fbdcdae6336963a2e566ea6"⟩,
           ⟨1, 1, [⟨"SYSTEM", "m", "Block reward to m", none⟩],
             some "233142eb21d663ce6fbdcdae6336963a2e566ea6", 0,
             some "78cb8468377135a0d085470eed21ec14d0597db7"⟩], []⟩,
         ⟨1, 1, [⟨"SYSTEM", "m", "Block reward to m", none⟩],
           some "233142eb21d663ce6fbdcdae6336963a2e566ea6", 0,
           some "78cb8468377135a0d085470eed21ec14d0597db7"⟩))
    ∧ (⟨0,
          [⟨0, 0, [], some (zeros 40), 0,
             some "233142eb21d663ce6fbdcdae6336963a2e566ea6"⟩,
           ⟨1, 1, [⟨"SYSTEM", "m", "Block reward to m", none⟩],
             some "233142eb21d663ce6fbdcdae6336963a2e566ea6", 0,
             some "78cb8468377135a0d085470eed21ec14d0597db7"⟩], []⟩ : Blockchain).chain
        = (Blockchain.init 0 0).chain
          ++ [(⟨1, 1, [⟨"SYSTEM", "m", "Block reward to m", none⟩],
                some "233142eb21d663ce6fbdcdae6336963a2e566ea6", 0,
                some "78cb8468377135a0d085470eed21ec14d0597db7"⟩ : Block)]
    ∧ (⟨1, 1, [⟨"SYSTEM", "m", "Block reward to m", none⟩],
          some "233142eb21d663ce6fbdcdae6336963a2e566ea6", 0,
          some "78cb8468377135a0d085470eed21ec14d0597db7"⟩ : Block).transactions.length
        = (Blockchain.init 0 0).pending_transactions.length + 1
    ∧ (⟨0,
          [⟨0, 0, [], some (zeros 40), 0,
             some "233142eb21d663ce6fbdcdae6336963a2e566ea6"⟩,
           ⟨1, 1, [⟨"SYSTEM", "m", "Block reward to m", none⟩],
             some "233142eb21d663ce6fbdcdae6336963a2e566ea6", 0,
             some "78cb8468377135a0d085470eed21ec14d0597db7"⟩], []⟩ : Blockchain).pending_transactions
        = [] := by
  have hm : (Blockchain.init 0 0).mine_pending_transactions "m" 1 1
      = some
        (⟨0,
          [⟨0, 0, [], some (zeros 40), 0,
             some "233142eb21d663ce6fbdcdae6336963a2e566ea6"⟩,
           ⟨1, 1, [⟨"SYSTEM", "m", "Block reward to m", none⟩],
             some "233142eb21d663ce6fbdcdae6336963a2e566ea6", 0,
             some "78cb8468377135a0d085470eed21ec14d0597db7"⟩], []⟩,
         ⟨1, 1, [⟨"SYSTEM", "m", "Block reward to m", none⟩],
           some "233142eb21d663ce6fbdcdae6336963a2e566ea6", 0,
           some "78cb8468377135a0d085470eed21ec14d0597db7"⟩) := by decide
  have h := mine_appends_one_block _ _ _ _ _ _ hm
  exact ⟨hm, h.1, h.2.1, h.2.2.2.2.2⟩

lemma checkBlock_iff (d : Nat) (prev current : Block) :
    checkBlock d prev current = true ↔ blockChecks d prev current := by
  unfold checkBlock blockChecks
  cases hc : current.hash with
  | none => simp
  | some h =>
      dsimp only
      constructor
      · intro ht
        by_cases h1 : h = current.compute_hash
        · rw [if_neg (not_not_intro h1)] at ht
          by_cases h2 : current.previous_hash = prev.hash
          · rw [if_neg (not_not_intro h2)] at ht
            by_cases h3 : startswith h (zeros d) = true
            · exact ⟨by rw [h1], h2, h, rfl, h3⟩
            · have hf : startswith h (zeros d) = false := by
                revert h3
                cases startswith h (zeros d) <;> simp
              rw [if_pos (by simp [hf])] at ht
              exact absurd ht (by simp)
          · rw [if_pos h2] at ht
            exact absurd ht (by simp)
        · rw [if_pos h1] at ht
          exact absurd ht (by simp)
      · rintro ⟨ha, hb, h', hh', hsw⟩
        rw [Option.some.injEq] at ha hh'
        rw [if_neg (not_not_intro ha), if_neg (not_not_intro hb),
          if_neg (by rw [hh']; simp [hsw])]

lemma chainValidFrom_iff (d : Nat) :
    ∀ (rest : List Block) (prev : Block),
      chainValidFrom d prev rest = true ↔
        ∀ i (hi : i < rest.length),
          blockChecks d ((prev :: rest).get ⟨i, Nat.lt_succ_of_lt hi⟩)
            (rest.get ⟨i, hi⟩) := by
  intro rest
  induction rest with
  | nil =>
      intro prev
      constructor
      · intro _ i hi
        exact absurd hi (by simp)
      · intro _
        rfl
  | cons cur rest ih =>
      intro prev
      rw [chainValidFrom, Bool.and_eq_true, checkBlock_iff, ih cur]
      constructor
      · rintro ⟨hc, hrec⟩ i hi
        match i with
        | 0 => exact hc
        | j + 1 => exact hrec j (by simpa using hi)
      · intro hall
        exact ⟨hall 0 (by simp), fun j hj => hall (j + 1) (by simpa using hj)⟩

lemma is_chain_valid_iff (bc : Blockchain) :
    bc.is_chain_valid = true ↔
      ∀ i (h1 : 1 ≤ i) (hi : i < bc.chain.length),
        blockChecks bc.difficulty (bc.chain.get ⟨i - 1, by omega⟩)
          (bc.chain.get ⟨i, hi⟩) := by
  unfold Blockchain.is_chain_valid
  cases hch : bc.chain with
  | nil =>
      constructor
      · intro _ i h1 hi
        exact absurd hi (by simp)
      · intro _
        rfl
  | cons g rest =>
      rw [chainValidFrom_iff]
      constructor
      · intro hall i h1 hi
        obtain ⟨j, rfl⟩ : ∃ j, i = j + 1 := ⟨i - 1, by omega⟩
        simp only [Nat.add_sub_cancel]
        exact hall j (by simpa using hi)
      · intro hall i hi
        have := hall (i + 1) (by omega) (by simpa using hi)
        simpa using this

/-- C3.  `is_chain_valid` returns `true` exactly when every block at
index at least 1 in the chain satisfies all three conditions — (a) its
stored hash equals the hash recomputed from its current field values,
(b) its `previous_hash` equals the predecessor block's stored hash, and
(c) its stored hash starts with `difficulty` `'0'` characters — the
genesis block at index 0 being exempt from all three. -/
theorem is_chain_valid_iff_all_blocks (bc : Blockchain) :
    bc.is_chain_valid = true ↔
      ∀ i (h1 : 1 ≤ i) (hi : i < bc.chain.length),
        (bc.chain.get ⟨i, hi⟩).hash = some ((bc.chain.get ⟨i, hi⟩).compute_hash)
        ∧ (bc.chain.get ⟨i, hi⟩).previous_hash
            = (bc.chain.get ⟨i - 1, by omega⟩).hash
        ∧ ∃ h, (bc.chain.get ⟨i, hi⟩).hash = some h
            ∧ startswith h (zeros bc.difficulty) = true :=
  is_chain_valid_iff bc

/-- Witness for C3 at the freshly constructed ledger: the right-hand side
holds vacuously for the one-block chain, so validation succeeds. -/
theorem is_chain_valid_iff_all_blocks_witness :
    (Blockchain.init 0 0).is_chain_valid = true :=
  (is_chain_valid_iff_all_blocks (Blockchain.init 0 0)).mpr
    (fun i h1 hi => absurd hi (by simp [Blockchain.init]; omega))

lemma chainValidFrom_append (d : Nat) :
    ∀ (rest : List Block) (prev nb : Block),
      chainValidFrom d prev (rest ++ [nb]) =
        (chainValidFrom d prev rest
          && checkBlock d ((prev :: rest).getLast (by simp)) nb) := by
  intro rest
  induction rest with
  | nil =>
      intro prev nb
      simp [chainValidFrom, List.getLast]
  | cons cur rest ih =>
      intro prev nb
      rw [List.cons_append, chainValidFrom, ih cur, chainValidFrom,
        List.getLast_cons (by simp : cur :: rest ≠ []), Bool.and_assoc]

lemma add_transaction_state (cap : SigCap) (bc : Blockchain) (tx : Transaction) :
    ((bc.add_transaction cap tx).2).difficulty = bc.difficulty
    ∧ ((bc.add_transaction cap tx).2).chain = bc.chain := by
  unfold Blockchain.add_transaction
  split <;> exact ⟨rfl, rfl⟩

lemma reachable_inv (cap : SigCap) (bc : Blockchain) (h : Reachable cap bc) :
    (∀ b ∈ bc.chain, b.hash = some b.compute_hash) ∧ bc.is_chain_valid = true := by
  induction h with
  | base d t0 =>
      constructor
      · intro b hb
        simp only [Blockchain.init, List.mem_singleton] at hb
        subst hb
        rfl
      · rfl
  | add bc tx hr ih =>
      obtain ⟨hd, hch⟩ := add_transaction_state cap bc tx
      have hv : ((bc.add_transaction cap tx).2).is_chain_valid = bc.is_chain_valid := by
        unfold Blockchain.is_chain_valid
        rw [hch, hd]
      exact ⟨by rw [hch]; exact ih.1, by rw [hv]; exact ih.2⟩
  | mine bc miner t fuel bc' blk hr hm ih =>
      obtain ⟨last, hlast, hidx, hts, hph, htx, hhash, hsw, hbc'⟩ :=
        mine_spec bc miner t fuel bc' blk hm
      subst hbc'
      have hne : bc.chain ≠ [] := by
        intro hnil
        rw [hnil] at hlast
        exact absurd hlast (by simp)
      obtain ⟨g, rest, hgr⟩ : ∃ g rest, bc.chain = g :: rest := by
        cases hcc : bc.chain with
        | nil => exact absurd hcc hne
        | cons a l => exact ⟨a, l, rfl⟩
      constructor
      · intro b hb
        simp only [List.mem_append, List.mem_singleton] at hb
        rcases hb with hb | rfl
        · exact ih.1 b hb
        · exact hhash
      · have hgl : (g :: rest).getLast (by simp) = last := by
          have hq := List.getLast?_eq_getLast (g :: rest) (by simp)
          rw [hgr, hq, Option.some.injEq] at hlast
          exact hlast
        have hold : chainValidFrom bc.difficulty g rest = true := by
          have h2 := ih.2
          unfold Blockchain.is_chain_valid at h2
          rw [hgr] at h2
          exact h2
        show Blockchain.is_chain_valid _ = true
        unfold Blockchain.is_chain_valid
        simp only [hgr, List.cons_append]
        rw [chainValidFrom_append, Bool.and_eq_true]
        refine ⟨hold, ?_⟩
        rw [checkBlock_iff, hgl]
        exact ⟨hhash, by rw [hph], blk.compute_hash, hhash, hsw⟩

/-- C4.  In every ledger state reachable from construction by
`add_transaction` calls and terminating `mine_pending_transactions`
calls, every committed block's stored hash is the digest of its own
canonical encoding, every non-genesis block's `previous_hash` equals its
predecessor's stored hash, and `is_chain_valid` returns `true` — in
particular immediately after construction and after every successful
mine. -/
theorem reachable_states_keep_hash_invariants (cap : SigCap) (bc : Blockchain)
    (h : Reachable cap bc) :
    (∀ b ∈ bc.chain, b.hash = some b.compute_hash)
    ∧ (∀ i (h1 : 1 ≤ i) (hi : i < bc.chain.length),
         (bc.chain.get ⟨i, hi⟩).previous_hash = (bc.chain.get ⟨i - 1, by omega⟩).hash)
    ∧ bc.is_chain_valid = true := by
  obtain ⟨hhash, hvalid⟩ := reachable_inv cap bc h
  refine ⟨hhash, ?_, hvalid⟩
  intro i h1 hi
  exact ((is_chain_valid_iff bc).mp hvalid i h1 hi).2.1

/-- Witness for C4 at the freshly constructed ledger. -/
theorem reachable_states_keep_hash_invariants_witness :
    (∀ b ∈ (Blockchain.init 0 0).chain, b.hash = some b.compute_hash)
    ∧ (∀ i (h1 : 1 ≤ i) (hi : i < (Blockchain.init 0 0).chain.length),
         ((Blockchain.init 0 0).chain.get ⟨i, hi⟩).previous_hash
           = ((Blockchain.init 0 0).chain.get ⟨i - 1, by omega⟩).hash)
    ∧ (Blockchain.init 0 0).is_chain_valid = true :=
  reachable_states_keep_hash_invariants (fun _ _ _ => false) (Blockchain.init 0 0)
    (Reachable.base 0 0)

/-- C10 (implicit).  A transaction whose sender is `"SYSTEM"` passes
`verify` for every recipient, message, and (absent or arbitrary)
signature and key fields, is therefore always accepted by
`add_transaction` and appended to the pending pool, and its record is
included in the next successfully mined block: the engine performs no
authentication of SYSTEM-originated transactions. -/
theorem system_sender_is_never_authenticated (cap : SigCap)
    (recipient message : String) (sig pk : Option String) (bc : Blockchain) :
    Transaction.verify cap ⟨"SYSTEM", recipient, message, sig, pk⟩ = true
    ∧ Blockchain.add_transaction cap bc ⟨"SYSTEM", recipient, message, sig, pk⟩
        = (true, { difficulty := bc.difficulty, chain := bc.chain,
                   pending_transactions :=
                     bc.pending_transactions
                       ++ [⟨"SYSTEM", recipient, message, sig, pk⟩] })
    ∧ ∀ miner t fuel bc' blk,
        (Blockchain.add_transaction cap bc
            ⟨"SYSTEM", recipient, message, sig, pk⟩).2.mine_pending_transactions
            miner t fuel = some (bc', blk) →
        Transaction.to_dict ⟨"SYSTEM", recipient, message, sig, pk⟩ ∈ blk.transactions := by
  have hv : Transaction.verify cap ⟨"SYSTEM", recipient, message, sig, pk⟩ = true := rfl
  have hadd : Blockchain.add_transaction cap bc ⟨"SYSTEM", recipient, message, sig, pk⟩
      = (true, { difficulty := bc.difficulty, chain := bc.chain,
                 pending_transactions :=
                   bc.pending_transactions
                     ++ [⟨"SYSTEM", recipient, message, sig, pk⟩] }) := by
    unfold Blockchain.add_transaction
    rw [hv]
    rfl
  refine ⟨hv, hadd, ?_⟩
  intro miner t fuel bc' blk hm
  obtain ⟨last, hlast, hidx, hts, hph, htx, hhash, hsw, hbc'⟩ :=
    mine_spec _ miner t fuel bc' blk hm
  rw [htx, hadd]
  simp [List.mem_map]

/-- Witness for C10: a caller-constructed fake reward transaction is
admitted on a fresh ledger and appears in the next mined block. -/
theorem system_sender_is_never_authenticated_witness :
    ((Blockchain.add_transaction (fun _ _ _ => false) (Blockchain.init 0 0)
        ⟨"SYSTEM", "r", "fake reward", none, none⟩).2.mine_pending_transactions "m" 1 1
      = some
        (⟨0,
          [⟨0, 0, [], some (zeros 40), 0,
             some "233142eb21d663ce6fbdcdae6336963a2e566ea6"⟩,
           ⟨1, 1,
             [⟨"SYSTEM", "r", "fake reward", none⟩,
              ⟨"SYSTEM", "m", "Block reward to m", none⟩],
             some "233142eb21d663ce6fbdcdae6336963a2e566ea6", 0,
             some "258c66cafde8051ca3bb22741efc7353bbbd78f3"⟩], []⟩,
         ⟨1, 1,
           [⟨"SYSTEM", "r", "fake reward", none⟩,
            ⟨"SYSTEM", "m", "Block reward to m", none⟩],
           some "233142eb21d663ce6fbdcdae6336963a2e566ea6", 0,
           some "258c66cafde8051ca3bb22741efc7353bbbd78f3"⟩))
    ∧ Transaction.to_dict ⟨"SYSTEM", "r", "fake reward", none, none⟩
        ∈ (⟨1, 1,
             [⟨"SYSTEM", "r", "fake reward", none⟩,
              ⟨"SYSTEM", "m", "Block reward to m", none⟩],
             some "233142eb21d663ce6fbdcdae6336963a2e566ea6", 0,
             some "258c66cafde8051ca3bb22741efc7353bbbd78f3"⟩ : Block).transactions :=
  ⟨by decide,
   (system_sender_is_never_authenticated (fun _ _ _ => false) "r" "fake reward"
      none none (Blockchain.init 0 0)).2.2 "m" 1 1
      ⟨0,
        [⟨0, 0, [], some (zeros 40), 0,
           some "233142eb21d663ce6fbdcdae6336963a2e566ea6"⟩,
         ⟨1, 1,
           [⟨"SYSTEM", "r", "fake reward", none⟩,
            ⟨"SYSTEM", "m", "Block reward to m", none⟩],
           some "233142eb21d663ce6fbdcdae6336963a2e566ea6", 0,
           some "258c66cafde8051ca3bb22741efc7353bbbd78f3"⟩], []⟩
      ⟨1, 1,
        [⟨"SYSTEM", "r", "fake reward", none⟩,
         ⟨"SYSTEM", "m", "Block reward to m", none⟩],
        some "233142eb21d663ce6fbdcdae6336963a2e566ea6", 0,
        some "258c66cafde8051ca3bb22741efc7353bbbd78f3"⟩ (by decide)⟩

end Server
